import Mathlib

/-!
Verification development for the securelock folder-encryption engine
(src/src-tauri/src/crypto.rs, folder.rs, commands.rs).

Modelling conventions:
* Byte strings are `List Nat` (`Bytes`).  Machine-byte ranges are irrelevant
  to the verified properties, so no mod-256 discipline is imposed.
* AES-256-GCM is modelled as an ideal AEAD: the ciphertext part of a blob is
  an injective, executable encoding of (key, nonce, plaintext), so decryption
  succeeds exactly when the supplied key and the embedded nonce match the ones
  used at encryption time.  The blob layout (12-byte nonce prefix, length
  check in `decrypt`) follows crypto.rs exactly.
* Argon2id (`derive_key`) is modelled as a deterministic function of
  (password, salt) with a 32-byte output; the argon2 crate rejects too-short
  salts, modelled by the salt-length guard.  The collision structure of the
  real KDF is not modelled (no verified property needs it).
* OS randomness (salt and nonce generation) is passed in explicitly: salt
  values and nonce seeds are parameters of the engine operations.
* The file system of one folder is an association list from relative paths
  (`RPath` = directory components plus file name) to contents, plus the
  parsed `.securelock` manifest held in a separate slot (the manifest file
  name starts with a dot, so it is never enumerated by the lock walk; its
  JSON encoding round-trips and is not modelled).  `fs::write` failures,
  which folder.rs surfaces in the lock loop, are modelled by the `writeOk`
  and metadata-write flags; read/remove failures of files known to exist are
  not modelled.
* Error values are the strings of the source, with the path-quoting and the
  OS error cause omitted from formatted messages.
-/

namespace SecureLock

abbrev Bytes := List Nat

def NONCE_LEN : Nat := 12
def KEY_LEN : Nat := 32

/-- Model of the 12 random nonce bytes drawn from OsRng in crypto.rs
(`encrypt`): a fresh seed yields a 12-element list. -/
def nonceBytes (seed : Nat) : Bytes := List.replicate 11 0 ++ [seed]

/-- Ideal-AEAD ciphertext body: an injective length-prefixed encoding of the
key, the nonce and the plaintext.  Stands for the AES-GCM
ciphertext-plus-tag; opening it with a different key or nonce fails, exactly
like a GCM tag check. -/
def sealCT (key nonce pt : Bytes) : Bytes :=
  key.length :: (key ++ (nonce.length :: (nonce ++ pt)))

/-- Ideal-AEAD opening: recovers the plaintext iff the blob was sealed under
the same key and nonce. -/
def openCT (key nonce ct : Bytes) : Option Bytes :=
  match ct with
  | [] => none
  | klen :: rest =>
    if klen = key.length then
      if rest.take key.length = key then
        match rest.drop key.length with
        | [] => none
        | nlen :: rest2 =>
          if nlen = nonce.length then
            if rest2.take nonce.length = nonce then some (rest2.drop nonce.length)
            else none
          else none
      else none
    else none

/-- Deterministic 32-byte output of the modelled Argon2id KDF. -/
def kdfBytes (password : String) (salt : Bytes) : Bytes :=
  ((password.toList.map Char.toNat) ++ salt ++ List.replicate KEY_LEN 0).take KEY_LEN

/-- crypto.rs derive_key: Argon2id, deterministic in (password, salt),
32-byte output; the underlying crate rejects too-short salts. -/
def derive_key (password : String) (salt : Bytes) : Except String Bytes :=
  if salt.length < 4 then .error ("Key derivation error: salt too short")
  else .ok (kdfBytes password salt)

/-- crypto.rs encrypt: fresh random 12-byte nonce, AEAD-encrypt, prepend the
nonce.  The `Result` of the source can only fail on cipher initialisation,
which is impossible for a 32-byte key, so the model is total. -/
def encrypt (key : Bytes) (seed : Nat) (plaintext : Bytes) : Bytes :=
  nonceBytes seed ++ sealCT key (nonceBytes seed) plaintext

def tooShortMsg : String := "Data too short to contain nonce"
def authFailMsg : String := "Decryption failed — wrong password or corrupted data"

/-- crypto.rs decrypt: length guard, split off the 12-byte nonce, AEAD-open;
every authentication failure is reported with the single uniform message. -/
def decrypt (key data : Bytes) : Except String Bytes :=
  if data.length < NONCE_LEN then .error tooShortMsg
  else
    match openCT key (data.take NONCE_LEN) (data.drop NONCE_LEN) with
    | some pt => .ok pt
    | none => .error authFailMsg

/-- Byte form of the fixed constant b"SECURELOCK_VERIFY_TOKEN_V1". -/
def verifyConst : Bytes :=
  (String.toList ("SECURELOCK_VERIFY_TOKEN_V1")).map Char.toNat

/-- crypto.rs create_verify_token: encrypts the fixed constant. -/
def create_verify_token (key : Bytes) (seed : Nat) : Bytes :=
  encrypt key seed verifyConst

/-- crypto.rs verify_password: decrypt the token and compare with the
constant. -/
def verify_password (key token : Bytes) : Bool :=
  match decrypt key token with
  | .ok pt => decide (pt = verifyConst)
  | .error _ => false

/-- crypto.rs wrap_key: encrypt the folder key under the master key. -/
def wrap_key (master_key folder_key : Bytes) (seed : Nat) : Bytes :=
  encrypt master_key seed folder_key

/-- crypto.rs unwrap_key: decrypt, then require exactly the key length. -/
def unwrap_key (master_key wrapped : Bytes) : Except String Bytes :=
  match decrypt master_key wrapped with
  | .error e => .error e
  | .ok key_bytes =>
    if key_bytes.length = KEY_LEN then .ok key_bytes
    else .error ("Invalid wrapped key length")

/-! ## Folder model (folder.rs) -/

/-- A path relative to the folder root: directory components and file name.
`Path::with_file_name` of the source replaces exactly the `name` field. -/
structure RPath where
  dir : List String
  name : String
deriving DecidableEq

/-- File system of one folder: relative path to content.  Lookups take the
most recent write (head-first search). -/
abbrev FS := List (RPath × Bytes)

def fsRead (fs : FS) (p : RPath) : Option Bytes :=
  (fs.find? (fun e => decide (e.1 = p))).map (fun e => e.2)

def fsRemove (fs : FS) (p : RPath) : FS :=
  fs.filter (fun e => !(decide (e.1 = p)))

def fsWrite (fs : FS) (p : RPath) (b : Bytes) : FS :=
  (p, b) :: fsRemove fs p

def LOCKED_EXT : String := ".locked"

/-- folder.rs FileMeta. -/
structure FileMeta where
  original_name : String
  locked_name : String
  relative_path : RPath
deriving DecidableEq

/-- folder.rs FolderMeta (the parsed .securelock manifest). -/
structure FolderMeta where
  salt : Bytes
  verify_token : Bytes
  files : List FileMeta
  recovery_key : Option Bytes
deriving DecidableEq

/-- folder.rs ProtectedFolder status record. -/
structure ProtectedFolder where
  path : String
  is_locked : Bool
  file_count : Nat
  has_recovery : Bool
deriving DecidableEq

/-- State of one folder on disk: its regular files and its manifest file. -/
structure FolderState where
  files : FS
  manifest : Option FolderMeta
deriving DecidableEq

/-- True iff the file name starts with the hidden-file dot. -/
def isHidden (s : String) : Bool :=
  match s.toList with
  | [] => false
  | c :: _ => decide (c = Char.ofNat 46)

/-- The WalkDir enumeration of lock_folder: every regular file whose name
does not start with a dot (the manifest name .securelock is a dot file and
is therefore never enumerated). -/
def enumerate (fs : FS) : List RPath :=
  (fs.map (fun e => e.1)).filter (fun p => !(isHidden p.name))

/-- Ciphertext sibling path: original name plus the fixed suffix. -/
def lockedPath (p : RPath) : RPath := ⟨p.dir, p.name ++ LOCKED_EXT⟩

/-- The FileRecord pushed by the lock loop for one file. -/
def lockMeta (p : RPath) : FileMeta := ⟨p.name, p.name ++ LOCKED_EXT, p⟩

def lockMetas (paths : List RPath) : List FileMeta := paths.map lockMeta

/-- The per-file loop of folder.rs lock_folder: read the plaintext, encrypt
with a fresh nonce, write the ciphertext sibling, delete the original,
record a FileRecord.  Any failure aborts immediately, leaving the files
already transformed on disk. -/
def lockLoop (fs : FS) (key : Bytes) (paths : List RPath) (seed : Nat)
    (writeOk : RPath → Bool) : FS × Except String (List FileMeta) :=
  match paths with
  | [] => (fs, .ok [])
  | p :: rest =>
    match fsRead fs p with
    | none => (fs, .error ("Failed to read " ++ p.name))
    | some plaintext =>
      let encrypted := encrypt key seed plaintext
      if writeOk (lockedPath p) = false then
        (fs, .error ("Failed to write " ++ (lockedPath p).name))
      else
        let fs2 := fsRemove (fsWrite fs (lockedPath p) encrypted) p
        match lockLoop fs2 key rest (seed + 1) writeOk with
        | (fs3, .ok metas) => (fs3, .ok (lockMeta p :: metas))
        | (fs3, .error e) => (fs3, .error e)

/-- folder.rs lock_folder.  `isDir` is the `folder.is_dir()` test, `salt` the
output of generate_salt, `seed` the nonce-randomness supply, `writeOk` and
`metaWriteOk` model which fs::write calls the OS accepts. -/
def lock_folder (isDir : Bool) (st : FolderState) (folderPath password : String)
    (masterKey : Option Bytes) (salt : Bytes) (seed : Nat)
    (writeOk : RPath → Bool) (metaWriteOk : Bool) :
    FolderState × Except String ProtectedFolder :=
  if isDir = false then
    (st, .error (folderPath ++ " is not a valid directory"))
  else if st.manifest.isSome then
    (st, .error ("Folder is already locked"))
  else
    match derive_key password salt with
    | .error e => (st, .error e)
    | .ok key =>
      match lockLoop st.files key (enumerate st.files) (seed + 2) writeOk with
      | (fs2, .error e) => (⟨fs2, st.manifest⟩, .error e)
      | (fs2, .ok file_metas) =>
        if metaWriteOk = false then
          (⟨fs2, st.manifest⟩, .error ("Failed to write metadata"))
        else
          (⟨fs2, some ⟨salt, create_verify_token key seed, file_metas,
              masterKey.map (fun mk => wrap_key mk key (seed + 1))⟩⟩,
           .ok ⟨folderPath, true, file_metas.length,
              (masterKey.map (fun mk => wrap_key mk key (seed + 1))).isSome⟩)

/-- Ciphertext location recorded in a FileRecord:
folder.join(relative_path).with_file_name(locked_name). -/
def metaLockedPath (fm : FileMeta) : RPath := ⟨fm.relative_path.dir, fm.locked_name⟩

/-- Restore location: locked_path.with_file_name(original_name). -/
def metaOriginalPath (fm : FileMeta) : RPath := ⟨fm.relative_path.dir, fm.original_name⟩

/-- folder.rs decrypt_files: for each record, skip silently when the
ciphertext file does not exist, otherwise read, decrypt, write the original
and delete the ciphertext; a decryption failure aborts. -/
def decrypt_files (fs : FS) (key : Bytes) (files : List FileMeta) :
    FS × Except String Unit :=
  match files with
  | [] => (fs, .ok ())
  | fm :: rest =>
    match fsRead fs (metaLockedPath fm) with
    | none => decrypt_files fs key rest
    | some encrypted =>
      match decrypt key encrypted with
      | .error e => (fs, .error e)
      | .ok plaintext =>
        let fs2 := fsRemove (fsWrite fs (metaOriginalPath fm) plaintext) (metaLockedPath fm)
        decrypt_files fs2 key rest

/-- folder.rs read_meta: the manifest must exist (its JSON round-trips, so
parsing is not modelled). -/
def read_meta (st : FolderState) : Except String FolderMeta :=
  match st.manifest with
  | none => .error ("Folder is not locked (no .securelock metadata found)")
  | some m => .ok m

def wrongPasswordMsg : String := "Incorrect password"

/-- folder.rs unlock_folder: load manifest, check the stored salt length,
re-derive the key, verify the token, decrypt all files, delete the
manifest. -/
def unlock_folder (st : FolderState) (folderPath password : String) :
    FolderState × Except String ProtectedFolder :=
  match read_meta st with
  | .error e => (st, .error e)
  | .ok meta =>
    if (meta.salt.length = KEY_LEN : Bool) = false then
      (st, .error ("Invalid salt in metadata"))
    else
      match derive_key password meta.salt with
      | .error e => (st, .error e)
      | .ok key =>
        if verify_password key meta.verify_token = false then
          (st, .error wrongPasswordMsg)
        else
          match decrypt_files st.files key meta.files with
          | (fs2, .error e) => (⟨fs2, st.manifest⟩, .error e)
          | (fs2, .ok _) =>
            (⟨fs2, none⟩, .ok ⟨folderPath, false, meta.files.length, false⟩)

def noRecoveryMsg : String := "No recovery key found for this folder"
def masterVerifyFailMsg : String := "Master password verification failed"

/-- folder.rs unlock_folder_with_master_key: unwrap the recovery key with
the master key, verify, decrypt, delete the manifest. -/
def unlock_folder_with_master_key (st : FolderState) (folderPath : String)
    (masterKey : Bytes) : FolderState × Except String ProtectedFolder :=
  match read_meta st with
  | .error e => (st, .error e)
  | .ok meta =>
    match meta.recovery_key with
    | none => (st, .error noRecoveryMsg)
    | some wrapped =>
      match unwrap_key masterKey wrapped with
      | .error e => (st, .error e)
      | .ok folder_key =>
        if verify_password folder_key meta.verify_token = false then
          (st, .error masterVerifyFailMsg)
        else
          match decrypt_files st.files folder_key meta.files with
          | (fs2, .error e) => (⟨fs2, st.manifest⟩, .error e)
          | (fs2, .ok _) =>
            (⟨fs2, none⟩, .ok ⟨folderPath, false, meta.files.length, false⟩)

/-- folder.rs is_locked for one folder state: the manifest file exists. -/
def is_locked (st : FolderState) : Bool := st.manifest.isSome

/-! ## Multi-folder world (commands.rs lock_all) -/

/-- The watched portion of the file system: existing directories by path. -/
abbrev World := List (String × FolderState)

def wLookup (w : World) (path : String) : Option FolderState :=
  (w.find? (fun e => decide (e.1 = path))).map (fun e => e.2)

def wUpdate (w : World) (path : String) (st : FolderState) : World :=
  (path, st) :: w.filter (fun e => !(decide (e.1 = path)))

/-- folder.rs is_locked by path: false when the directory does not exist. -/
def is_locked_w (w : World) (path : String) : Bool :=
  match wLookup w path with
  | some st => st.manifest.isSome
  | none => false

/-- lock_folder invoked on a path of the world; a missing directory hits the
is_dir guard of lock_folder. -/
def lock_folder_at (w : World) (path password : String) (mk? : Option Bytes)
    (salt : Bytes) (seed : Nat) (writeOk : RPath → Bool) (metaOk : Bool) :
    World × Except String ProtectedFolder :=
  match wLookup w path with
  | none =>
    (w, (lock_folder false ⟨[], none⟩ path password mk? salt seed writeOk metaOk).2)
  | some st =>
    let res := lock_folder true st path password mk? salt seed writeOk metaOk
    (wUpdate w path res.1, res.2)

/-- Environment supplied by the OS to a batch lock: per-attempt salt and
nonce randomness, and which writes succeed in each folder. -/
structure Env where
  saltOf : Nat → Bytes
  seedOf : Nat → Nat
  writeOkOf : String → RPath → Bool
  metaOkOf : String → Bool

/-- commands.rs lock_all: iterate over the watched paths, silently skip the
already-locked ones, lock the rest, fail fast wrapping the first error. -/
def lock_all (w : World) (watched : List String) (password : String)
    (mk? : Option Bytes) (env : Env) (i : Nat) :
    World × Except String (List ProtectedFolder) :=
  match watched with
  | [] => (w, .ok [])
  | p :: rest =>
    if is_locked_w w p then lock_all w rest password mk? env (i + 1)
    else
      match lock_folder_at w p password mk? (env.saltOf i) (env.seedOf i)
          (env.writeOkOf p) (env.metaOkOf p) with
      | (w1, .ok pf) =>
        match lock_all w1 rest password mk? env (i + 1) with
        | (w2, .ok pfs) => (w2, .ok (pf :: pfs))
        | (w2, .error e) => (w2, .error e)
      | (w1, .error e) => (w1, .error ("Failed to lock " ++ p ++ ": " ++ e))

/-! ## File-system lemmas -/

theorem fsRead_fsWrite_self (fs : FS) (p : RPath) (b : Bytes) :
    fsRead (fsWrite fs p b) p = some b := by
  simp [fsRead, fsWrite, List.find?]

theorem fsRemove_cons_self (e : RPath × Bytes) (rest : FS) (p : RPath)
    (he : e.1 = p) : fsRemove (e :: rest) p = fsRemove rest p := by
  simp [fsRemove, List.filter, he]

theorem fsRemove_cons_ne (e : RPath × Bytes) (rest : FS) (p : RPath)
    (he : ¬ e.1 = p) : fsRemove (e :: rest) p = e :: fsRemove rest p := by
  simp [fsRemove, List.filter, he]

theorem fsRead_cons_self (e : RPath × Bytes) (rest : FS) (q : RPath)
    (hq : e.1 = q) : fsRead (e :: rest) q = some e.2 := by
  unfold fsRead
  rw [List.find?_cons_of_pos rest (by simp [hq])]
  rfl

theorem fsRead_cons_ne (e : RPath × Bytes) (rest : FS) (q : RPath)
    (hq : ¬ e.1 = q) : fsRead (e :: rest) q = fsRead rest q := by
  unfold fsRead
  rw [List.find?_cons_of_neg rest (by simp [hq])]

theorem fsRead_fsRemove_self (fs : FS) (p : RPath) :
    fsRead (fsRemove fs p) p = none := by
  induction fs with
  | nil => rfl
  | cons e rest ih =>
    by_cases h : e.1 = p
    · rw [fsRemove_cons_self e rest p h]; exact ih
    · rw [fsRemove_cons_ne e rest p h, fsRead_cons_ne e _ p h]; exact ih

theorem fsRead_fsRemove_ne (fs : FS) (p q : RPath) (h : q ≠ p) :
    fsRead (fsRemove fs p) q = fsRead fs q := by
  induction fs with
  | nil => rfl
  | cons e rest ih =>
    by_cases he : e.1 = p
    · have hq : ¬ e.1 = q := by rw [he]; exact fun hc => h hc.symm
      rw [fsRemove_cons_self e rest p he, fsRead_cons_ne e rest q hq]; exact ih
    · by_cases hq : e.1 = q
      · rw [fsRemove_cons_ne e rest p he, fsRead_cons_self e _ q hq,
          fsRead_cons_self e rest q hq]
      · rw [fsRemove_cons_ne e rest p he, fsRead_cons_ne e _ q hq,
          fsRead_cons_ne e rest q hq]; exact ih

theorem fsRead_fsWrite_ne (fs : FS) (p q : RPath) (b : Bytes) (h : q ≠ p) :
    fsRead (fsWrite fs p b) q = fsRead fs q := by
  have hp : ¬ (p, b).1 = q := fun hc => h hc.symm
  unfold fsWrite
  rw [fsRead_cons_ne (p, b) _ q hp]
  exact fsRead_fsRemove_ne fs p q h

theorem fsRead_isSome_of_mem (fs : FS) (p : RPath)
    (h : p ∈ fs.map (fun e => e.1)) : (fsRead fs p).isSome := by
  induction fs with
  | nil => simp at h
  | cons e rest ih =>
    rcases List.mem_cons.mp h with h1 | h2
    · simp [fsRead, List.find?, h1.symm]
    · by_cases he : e.1 = p
      · simp [fsRead, List.find?, he]
      · simpa [fsRead, List.find?, he] using ih h2

theorem fsRead_eq_none_of_not_mem (fs : FS) (p : RPath)
    (h : p ∉ fs.map (fun e => e.1)) : fsRead fs p = none := by
  induction fs with
  | nil => rfl
  | cons e rest ih =>
    have h1 : e.1 ≠ p := fun hc => h (by simp [hc])
    have h2 : p ∉ rest.map (fun e => e.1) := fun hc => h (by simp [hc])
    simpa [fsRead, List.find?, h1] using ih h2

/-! ## Crypto lemmas -/

theorem length_nonceBytes (s : Nat) : (nonceBytes s).length = NONCE_LEN := by
  simp [nonceBytes, NONCE_LEN]

theorem openCT_seal_self (key nonce pt : Bytes) :
    openCT key nonce (sealCT key nonce pt) = some pt := by
  simp [openCT, sealCT, List.take_left, List.drop_left]

theorem openCT_seal_ne (key key2 nonce pt : Bytes) (h : key2 ≠ key) :
    openCT key2 nonce (sealCT key nonce pt) = none := by
  by_cases hl : key.length = key2.length
  · have htake : (key ++ (nonce.length :: (nonce ++ pt))).take key2.length = key := by
      rw [← hl]; exact List.take_left _ _
    have hne : ¬ (key ++ (nonce.length :: (nonce ++ pt))).take key2.length = key2 := by
      rw [htake]; exact fun hc => h hc.symm
    simp [openCT, sealCT, hl, hne]
    exact fun hc => h hc.symm
  · simp [openCT, sealCT, hl]

theorem decrypt_encrypt (key pt : Bytes) (s : Nat) :
    decrypt key (encrypt key s pt) = .ok pt := by
  have hlen : (nonceBytes s).length = NONCE_LEN := length_nonceBytes s
  have h1 : (nonceBytes s ++ sealCT key (nonceBytes s) pt).take NONCE_LEN
      = nonceBytes s := by rw [← hlen, List.take_left]
  have h2 : (nonceBytes s ++ sealCT key (nonceBytes s) pt).drop NONCE_LEN
      = sealCT key (nonceBytes s) pt := by rw [← hlen, List.drop_left]
  have h3 : ¬ (nonceBytes s ++ sealCT key (nonceBytes s) pt).length < NONCE_LEN := by
    rw [List.length_append, hlen]; omega
  unfold decrypt encrypt
  rw [if_neg h3, h1, h2, openCT_seal_self]

theorem decrypt_encrypt_ne (key key2 pt : Bytes) (s : Nat) (h : key2 ≠ key) :
    decrypt key2 (encrypt key s pt) = .error authFailMsg := by
  have hlen : (nonceBytes s).length = NONCE_LEN := length_nonceBytes s
  have h1 : (nonceBytes s ++ sealCT key (nonceBytes s) pt).take NONCE_LEN
      = nonceBytes s := by rw [← hlen, List.take_left]
  have h2 : (nonceBytes s ++ sealCT key (nonceBytes s) pt).drop NONCE_LEN
      = sealCT key (nonceBytes s) pt := by rw [← hlen, List.drop_left]
  have h3 : ¬ (nonceBytes s ++ sealCT key (nonceBytes s) pt).length < NONCE_LEN := by
    rw [List.length_append, hlen]; omega
  unfold decrypt encrypt
  rw [if_neg h3, h1, h2, openCT_seal_ne key key2 _ pt h]

theorem verify_create (key : Bytes) (s : Nat) :
    verify_password key (create_verify_token key s) = true := by
  simp [verify_password, create_verify_token, decrypt_encrypt]

theorem kdfBytes_length (password : String) (salt : Bytes) :
    (kdfBytes password salt).length = KEY_LEN := by
  simp [kdfBytes, List.length_take]
  omega

theorem derive_key_ok (password : String) (salt : Bytes) (h : salt.length = 32) :
    derive_key password salt = .ok (kdfBytes password salt) := by
  simp [derive_key, h]

theorem unwrap_wrap (mk fk : Bytes) (s : Nat) (h : fk.length = KEY_LEN) :
    unwrap_key mk (wrap_key mk fk s) = .ok fk := by
  simp [unwrap_key, wrap_key, decrypt_encrypt, h]

theorem unwrap_wrap_ne (mk mk2 fk : Bytes) (s : Nat) (h : mk2 ≠ mk) :
    unwrap_key mk2 (wrap_key mk fk s) = .error authFailMsg := by
  simp [unwrap_key, wrap_key, decrypt_encrypt_ne mk mk2 fk s h]

/-! ## Path lemmas -/

theorem lockedPath_injective (p q : RPath) (h : lockedPath p = lockedPath q) :
    p = q := by
  rcases p with ⟨pd, pn⟩
  rcases q with ⟨qd, qn⟩
  simp only [lockedPath, RPath.mk.injEq] at h
  rcases h with ⟨hd, hn⟩
  have hn' : pn = qn := by
    have h1 : pn.data ++ LOCKED_EXT.data = qn.data ++ LOCKED_EXT.data := by
      have := congrArg String.data hn
      simpa [String.data_append] using this
    have h2 : pn.data = qn.data := List.append_cancel_right h1
    cases pn; cases qn; exact congrArg String.mk h2
  simp [hd, hn']

theorem metaLockedPath_lockMeta (p : RPath) :
    metaLockedPath (lockMeta p) = lockedPath p := rfl

theorem metaOriginalPath_lockMeta (p : RPath) :
    metaOriginalPath (lockMeta p) = p := rfl

/-! ## Lock-loop lemmas -/

theorem lockLoop_cons_ok (fs : FS) (key : Bytes) (p : RPath) (rest : List RPath)
    (seed : Nat) (writeOk : RPath → Bool) (pt : Bytes) (fs3 : FS)
    (metas : List FileMeta)
    (hpt : fsRead fs p = some pt) (hwp : writeOk (lockedPath p) = true)
    (hrec : lockLoop (fsRemove (fsWrite fs (lockedPath p) (encrypt key seed pt)) p)
        key rest (seed + 1) writeOk = (fs3, .ok metas)) :
    lockLoop fs key (p :: rest) seed writeOk = (fs3, .ok (lockMeta p :: metas)) := by
  simp only [lockLoop, hpt, hwp, Bool.true_eq_false, if_false, hrec]

/-- Specification of the per-file lock loop under a write-friendly OS:
it succeeds, records exactly one FileRecord per enumerated path, replaces
each original by a ciphertext sibling and touches nothing else. -/
theorem lockLoop_spec (key : Bytes) (writeOk : RPath → Bool)
    (hw : ∀ q, writeOk q = true) :
    ∀ (paths : List RPath) (fs : FS) (seed : Nat),
      paths.Nodup →
      (∀ p ∈ paths, (fsRead fs p).isSome) →
      (∀ p ∈ paths, ∀ q ∈ paths, lockedPath p ≠ q) →
      ∃ fs2, lockLoop fs key paths seed writeOk = (fs2, .ok (lockMetas paths)) ∧
        (∀ p ∈ paths, fsRead fs2 p = none) ∧
        (∀ p ∈ paths, ∃ s, fsRead fs2 (lockedPath p)
            = some (encrypt key s ((fsRead fs p).getD []))) ∧
        (∀ r, r ∉ paths → (∀ p ∈ paths, lockedPath p ≠ r) →
            fsRead fs2 r = fsRead fs r) := by
  intro paths
  induction paths with
  | nil =>
    intro fs seed _ _ _
    exact ⟨fs, rfl, by simp, by simp, fun r _ _ => rfl⟩
  | cons p rest ih =>
    intro fs seed hnd hrd hnc
    have hp : p ∈ p :: rest := List.mem_cons_self p rest
    obtain ⟨pt, hpt⟩ : ∃ pt, fsRead fs p = some pt :=
      Option.isSome_iff_exists.mp (hrd p hp)
    have hnd' : rest.Nodup := (List.nodup_cons.mp hnd).2
    have hpnotin : p ∉ rest := (List.nodup_cons.mp hnd).1
    have hLp_ne_p : lockedPath p ≠ p := hnc p hp p hp
    set fs2 : FS := fsRemove (fsWrite fs (lockedPath p) (encrypt key seed pt)) p
      with hfs2
    have hfs2_read : ∀ q : RPath, q ≠ p → q ≠ lockedPath p →
        fsRead fs2 q = fsRead fs q := by
      intro q hq1 hq2
      rw [hfs2, fsRead_fsRemove_ne _ _ _ hq1, fsRead_fsWrite_ne _ _ _ _ hq2]
    have hrd' : ∀ q ∈ rest, (fsRead fs2 q).isSome := by
      intro q hq
      have hq1 : q ≠ p := fun hc => hpnotin (hc ▸ hq)
      have hq2 : q ≠ lockedPath p := fun hc =>
        (hnc p hp q (List.mem_cons_of_mem p hq)) hc.symm
      rw [hfs2_read q hq1 hq2]
      exact hrd q (List.mem_cons_of_mem p hq)
    have hnc' : ∀ a ∈ rest, ∀ b ∈ rest, lockedPath a ≠ b := fun a ha b hb =>
      hnc a (List.mem_cons_of_mem p ha) b (List.mem_cons_of_mem p hb)
    obtain ⟨fs3, hloop, hnone, hct, huntouched⟩ := ih fs2 (seed + 1) hnd' hrd' hnc'
    refine ⟨fs3, ?_, ?_, ?_, ?_⟩
    · exact lockLoop_cons_ok fs key p rest seed writeOk pt fs3 (lockMetas rest)
        hpt (hw (lockedPath p)) hloop
    · intro q hq
      rcases List.mem_cons.mp hq with h1 | h2
      · subst h1
        have h3 : q ∉ rest := hpnotin
        have h4 : ∀ a ∈ rest, lockedPath a ≠ q := fun a ha =>
          hnc a (List.mem_cons_of_mem q ha) q hq
        rw [huntouched q h3 h4, hfs2, fsRead_fsRemove_self]
      · exact hnone q h2
    · intro q hq
      rcases List.mem_cons.mp hq with h1 | h2
      · subst h1
        have h3 : lockedPath q ∉ rest := fun hc =>
          (hnc q hq (lockedPath q) (List.mem_cons_of_mem q hc)) rfl
        have h4 : ∀ a ∈ rest, lockedPath a ≠ lockedPath q := by
          intro a ha hc
          have hay : a = q := lockedPath_injective a q hc
          exact hpnotin (hay ▸ ha)
        refine ⟨seed, ?_⟩
        rw [huntouched (lockedPath q) h3 h4, hfs2,
          fsRead_fsRemove_ne _ _ _ hLp_ne_p, fsRead_fsWrite_self, hpt]
        rfl
      · obtain ⟨s, hs⟩ := hct q h2
        have hq1 : q ≠ p := fun hc => hpnotin (hc ▸ h2)
        have hq2 : q ≠ lockedPath p := fun hc =>
          (hnc p hp q (List.mem_cons_of_mem p h2)) hc.symm
        refine ⟨s, ?_⟩
        rw [hs, hfs2_read q hq1 hq2]
    · intro r hr1 hr2
      have h3 : r ∉ rest := fun hc => hr1 (List.mem_cons_of_mem p hc)
      have h4 : ∀ a ∈ rest, lockedPath a ≠ r := fun a ha =>
        hr2 a (List.mem_cons_of_mem p ha)
      have hq1 : r ≠ p := fun hc => hr1 (hc ▸ List.mem_cons_self p rest)
      have hq2 : r ≠ lockedPath p := fun hc => (hr2 p hp) hc.symm
      rw [huntouched r h3 h4, hfs2_read r hq1 hq2]

/-- On success the lock loop records exactly the FileRecords of the
enumerated paths, in order. -/
theorem lockLoop_ok_metas (key : Bytes) (writeOk : RPath → Bool) :
    ∀ (paths : List RPath) (fs : FS) (seed : Nat) (fs2 : FS)
      (ms : List FileMeta),
      lockLoop fs key paths seed writeOk = (fs2, .ok ms) → ms = lockMetas paths := by
  intro paths
  induction paths with
  | nil =>
    intro fs seed fs2 ms h
    simp only [lockLoop, Prod.mk.injEq] at h
    rcases h with ⟨_, h2⟩
    cases h2
    rfl
  | cons p rest ih =>
    intro fs seed fs2 ms h
    rcases hr : fsRead fs p with _ | pt
    · simp [lockLoop, hr] at h
    · simp only [lockLoop, hr] at h
      by_cases hwp : writeOk (lockedPath p) = false
      · rw [if_pos hwp] at h
        simp at h
      · rw [if_neg hwp] at h
        rcases hrec : lockLoop
            (fsRemove (fsWrite fs (lockedPath p) (encrypt key seed pt)) p)
            key rest (seed + 1) writeOk with ⟨fs3, r3⟩
        rw [hrec] at h
        cases r3 with
        | ok ms3 =>
          simp only [Prod.mk.injEq, Except.ok.injEq] at h
          rcases h with ⟨_, h2⟩
          rw [← h2, ih _ _ _ _ hrec]
          rfl
        | error e => simp at h

/-! ## Unlock-loop lemmas -/

theorem decrypt_files_cons_skip (fs : FS) (key : Bytes) (fm : FileMeta)
    (rest : List FileMeta) (h : fsRead fs (metaLockedPath fm) = none) :
    decrypt_files fs key (fm :: rest) = decrypt_files fs key rest := by
  simp only [decrypt_files, h]

theorem decrypt_files_cons_ok (fs : FS) (key : Bytes) (fm : FileMeta)
    (rest : List FileMeta) (enc pt : Bytes)
    (hr : fsRead fs (metaLockedPath fm) = some enc)
    (hd : decrypt key enc = .ok pt) :
    decrypt_files fs key (fm :: rest)
      = decrypt_files (fsRemove (fsWrite fs (metaOriginalPath fm) pt)
          (metaLockedPath fm)) key rest := by
  simp only [decrypt_files, hr, hd]

/-- decrypt_files silently does nothing when none of the recorded
ciphertext files exists. -/
theorem decrypt_files_all_missing (key : Bytes) :
    ∀ (metas : List FileMeta) (fs : FS),
      (∀ fm ∈ metas, fsRead fs (metaLockedPath fm) = none) →
      decrypt_files fs key metas = (fs, .ok ()) := by
  intro metas
  induction metas with
  | nil => intro fs _; rfl
  | cons fm rest ih =>
    intro fs h
    rw [decrypt_files_cons_skip fs key fm rest (h fm (List.mem_cons_self fm rest))]
    exact ih fs (fun a ha => h a (List.mem_cons_of_mem fm ha))

/-- Specification of decrypt_files on a manifest produced by the lock loop:
with the right key it restores every original file, deletes every
ciphertext and touches nothing else. -/
theorem decrypt_files_spec (key : Bytes) (cont : RPath → Bytes) :
    ∀ (paths : List RPath) (fs : FS),
      paths.Nodup →
      (∀ p ∈ paths, ∀ q ∈ paths, lockedPath p ≠ q) →
      (∀ p ∈ paths, ∃ s, fsRead fs (lockedPath p) = some (encrypt key s (cont p))) →
      ∃ fs2, decrypt_files fs key (lockMetas paths) = (fs2, .ok ()) ∧
        (∀ p ∈ paths, fsRead fs2 p = some (cont p)) ∧
        (∀ p ∈ paths, fsRead fs2 (lockedPath p) = none) ∧
        (∀ r, r ∉ paths → (∀ p ∈ paths, lockedPath p ≠ r) →
            fsRead fs2 r = fsRead fs r) := by
  intro paths
  induction paths with
  | nil =>
    intro fs _ _ _
    exact ⟨fs, rfl, by simp, by simp, fun r _ _ => rfl⟩
  | cons p rest ih =>
    intro fs hnd hnc hct
    have hp : p ∈ p :: rest := List.mem_cons_self p rest
    have hnd' : rest.Nodup := (List.nodup_cons.mp hnd).2
    have hpnotin : p ∉ rest := (List.nodup_cons.mp hnd).1
    have hLp_ne_p : lockedPath p ≠ p := hnc p hp p hp
    obtain ⟨s, hs⟩ := hct p hp
    set fs2 : FS := fsRemove (fsWrite fs p (cont p)) (lockedPath p) with hfs2
    have hfs2_read : ∀ q : RPath, q ≠ p → q ≠ lockedPath p →
        fsRead fs2 q = fsRead fs q := by
      intro q hq1 hq2
      rw [hfs2, fsRead_fsRemove_ne _ _ _ hq2, fsRead_fsWrite_ne _ _ _ _ hq1]
    have hnc' : ∀ a ∈ rest, ∀ b ∈ rest, lockedPath a ≠ b := fun a ha b hb =>
      hnc a (List.mem_cons_of_mem p ha) b (List.mem_cons_of_mem p hb)
    have hct' : ∀ q ∈ rest, ∃ t, fsRead fs2 (lockedPath q)
        = some (encrypt key t (cont q)) := by
      intro q hq
      have hq1 : lockedPath q ≠ p := hnc q (List.mem_cons_of_mem p hq) p hp
      have hq2 : lockedPath q ≠ lockedPath p := by
        intro hc
        exact hpnotin ((lockedPath_injective q p hc) ▸ hq)
      obtain ⟨t, ht⟩ := hct q (List.mem_cons_of_mem p hq)
      exact ⟨t, by rw [hfs2_read (lockedPath q) hq1 hq2, ht]⟩
    obtain ⟨fs3, hloop, hrest, hgone, huntouched⟩ := ih fs2 hnd' hnc' hct'
    refine ⟨fs3, ?_, ?_, ?_, ?_⟩
    · have hcons := decrypt_files_cons_ok fs key (lockMeta p) (lockMetas rest)
        (encrypt key s (cont p)) (cont p) hs (decrypt_encrypt key (cont p) s)
      rw [show lockMetas (p :: rest) = lockMeta p :: lockMetas rest from rfl,
        hcons, metaOriginalPath_lockMeta, metaLockedPath_lockMeta, ← hfs2, hloop]
    · intro q hq
      rcases List.mem_cons.mp hq with h1 | h2
      · subst h1
        have h3 : q ∉ rest := hpnotin
        have h4 : ∀ a ∈ rest, lockedPath a ≠ q := fun a ha =>
          hnc a (List.mem_cons_of_mem q ha) q hq
        rw [huntouched q h3 h4, hfs2,
          fsRead_fsRemove_ne _ _ _ (fun hc => hLp_ne_p hc.symm),
          fsRead_fsWrite_self]
      · exact hrest q h2
    · intro q hq
      rcases List.mem_cons.mp hq with h1 | h2
      · subst h1
        have h3 : lockedPath q ∉ rest := fun hc =>
          (hnc q hq (lockedPath q) (List.mem_cons_of_mem q hc)) rfl
        have h4 : ∀ a ∈ rest, lockedPath a ≠ lockedPath q := by
          intro a ha hc
          exact hpnotin ((lockedPath_injective a q hc) ▸ ha)
        rw [huntouched (lockedPath q) h3 h4, hfs2, fsRead_fsRemove_self]
      · exact hgone q h2
    · intro r hr1 hr2
      have h3 : r ∉ rest := fun hc => hr1 (List.mem_cons_of_mem p hc)
      have h4 : ∀ a ∈ rest, lockedPath a ≠ r := fun a ha =>
        hr2 a (List.mem_cons_of_mem p ha)
      have hq1 : r ≠ p := fun hc => hr1 (hc ▸ List.mem_cons_self p rest)
      have hq2 : r ≠ lockedPath p := fun hc => (hr2 p hp) hc.symm
      rw [huntouched r h3 h4, hfs2_read r hq1 hq2]

/-! ## Claim C7: decrypt error taxonomy and round trip -/

/-- C7: decrypt fails with the too-short error exactly when the input is
shorter than the 12-byte nonce; every other failure is the single uniform
authentication error (wrong key and corrupted data are indistinguishable);
and decrypting an encryption under the same key returns the plaintext. -/
theorem decrypt_error_taxonomy (key data pt : Bytes) (seed : Nat) :
    (decrypt key data = .error tooShortMsg ↔ data.length < NONCE_LEN) ∧
    (∀ e, decrypt key data = .error e → e = tooShortMsg ∨ e = authFailMsg) ∧
    decrypt key (encrypt key seed pt) = .ok pt := by
  refine ⟨⟨?_, ?_⟩, ?_, decrypt_encrypt key pt seed⟩
  · intro h
    by_contra hlen
    rw [decrypt, if_neg hlen] at h
    rcases ho : openCT key (data.take NONCE_LEN) (data.drop NONCE_LEN) with _ | v
    · simp only [ho] at h
      have : authFailMsg = tooShortMsg := by simpa using h
      exact absurd this (by decide)
    · simp only [ho] at h
      exact Except.noConfusion h
  · intro h
    rw [decrypt, if_pos h]
  · intro e h
    by_cases hlen : data.length < NONCE_LEN
    · rw [decrypt, if_pos hlen] at h
      left
      have : tooShortMsg = e := by simpa using h
      exact this.symm
    · rw [decrypt, if_neg hlen] at h
      rcases ho : openCT key (data.take NONCE_LEN) (data.drop NONCE_LEN) with _ | v
      · simp only [ho] at h
        right
        have : authFailMsg = e := by simpa using h
        exact this.symm
      · simp only [ho] at h
        exact Except.noConfusion h

theorem decrypt_error_taxonomy_witness :
    decrypt [] [1, 2, 3] = .error tooShortMsg :=
  (decrypt_error_taxonomy [] [1, 2, 3] [] 0).1.mpr (by decide)

/-! ## Claim C8: verify token soundness -/

/-- C8: verify_password is true iff decrypting the token yields exactly the
fixed constant; create_verify_token encrypts exactly that constant, hence
verifies under the same key. -/
theorem verify_token_soundness (key token : Bytes) (seed : Nat) :
    (verify_password key token = true ↔ decrypt key token = .ok verifyConst) ∧
    create_verify_token key seed = encrypt key seed verifyConst ∧
    verify_password key (create_verify_token key seed) = true := by
  refine ⟨⟨?_, ?_⟩, rfl, verify_create key seed⟩
  · intro h
    unfold verify_password at h
    rcases hd : decrypt key token with e | v
    · rw [hd] at h
      simp at h
    · rw [hd] at h
      simp only [decide_eq_true_eq] at h
      rw [h]
  · intro h
    unfold verify_password
    rw [h]
    simp

theorem verify_token_soundness_witness :
    verify_password [5] (create_verify_token [5] 3) = true :=
  (verify_token_soundness [5] [] 3).2.2

/-! ## Claim C2: wrong password leaves the folder untouched -/

/-- C2: unlock_folder with a password whose derived key does not verify
against the stored token returns the wrong-password error with the folder
state (manifest and all ciphertext files) completely unchanged. -/
theorem unlock_wrong_password_atomic (st : FolderState) (fp pw : String)
    (meta : FolderMeta)
    (hman : st.manifest = some meta) (hsalt : meta.salt.length = KEY_LEN)
    (hv : verify_password (kdfBytes pw meta.salt) meta.verify_token = false) :
    unlock_folder st fp pw = (st, .error wrongPasswordMsg) := by
  unfold unlock_folder read_meta
  rw [hman]
  simp only [hsalt, derive_key_ok pw meta.salt hsalt, hv]
  simp

theorem unlock_wrong_password_atomic_witness :
    unlock_folder ⟨[], some ⟨List.replicate 32 0, [], [], none⟩⟩ ("f") ("pw")
      = (⟨[], some ⟨List.replicate 32 0, [], [], none⟩⟩, .error wrongPasswordMsg) :=
  unlock_wrong_password_atomic _ ("f") ("pw") _ rfl (by decide) (by decide)

/-! ## Claim C5: lock precondition guards -/

/-- C5: lock_folder on an already-locked folder (or a non-directory, or with
a failing key derivation) reports the error with the folder state completely
unchanged: no file is touched before these guards. -/
theorem lock_guard_errors (st : FolderState) (fp pw : String)
    (mk? : Option Bytes) (salt : Bytes) (seed : Nat) (wOk : RPath → Bool)
    (mOk : Bool) :
    (st.manifest.isSome = true →
      lock_folder true st fp pw mk? salt seed wOk mOk
        = (st, .error ("Folder is already locked"))) ∧
    (lock_folder false st fp pw mk? salt seed wOk mOk
      = (st, .error (fp ++ " is not a valid directory"))) ∧
    (∀ e, st.manifest = none → derive_key pw salt = .error e →
      lock_folder true st fp pw mk? salt seed wOk mOk = (st, .error e)) := by
  refine ⟨?_, ?_, ?_⟩
  · intro h
    unfold lock_folder
    simp [h]
  · rfl
  · intro e h1 h2
    unfold lock_folder
    simp [h1, h2]

theorem lock_guard_errors_witness :
    lock_folder true ⟨[], some ⟨[], [], [], none⟩⟩ ("f") ("pw") none [] 0
        (fun _ => true) true
      = (⟨[], some ⟨[], [], [], none⟩⟩, .error ("Folder is already locked")) :=
  (lock_guard_errors _ ("f") ("pw") none [] 0 _ true).1 (by decide)

/-! ## Claim C9: unlock silently skips missing ciphertext files -/

/-- C9: during unlock, every manifest record whose ciphertext file is absent
on disk is skipped silently; when all recorded files are missing, unlock
still reports success with the full manifest file count while restoring
nothing. -/
theorem unlock_skips_missing_files (st : FolderState) (fp pw : String)
    (meta : FolderMeta)
    (hman : st.manifest = some meta) (hsalt : meta.salt.length = KEY_LEN)
    (hv : verify_password (kdfBytes pw meta.salt) meta.verify_token = true)
    (hmiss : ∀ fm ∈ meta.files, fsRead st.files (metaLockedPath fm) = none) :
    unlock_folder st fp pw
      = (⟨st.files, none⟩, .ok ⟨fp, false, meta.files.length, false⟩) := by
  have hdf := decrypt_files_all_missing (kdfBytes pw meta.salt) meta.files
    st.files hmiss
  unfold unlock_folder read_meta
  rw [hman]
  simp only [hsalt, derive_key_ok pw meta.salt hsalt, hv, hdf]
  simp

theorem unlock_skips_missing_files_witness :
    unlock_folder
      ⟨[], some ⟨List.replicate 32 0,
        create_verify_token (kdfBytes ("pw") (List.replicate 32 0)) 0,
        [⟨"a", "a.locked", ⟨[], "a"⟩⟩], none⟩⟩ ("f") ("pw")
      = (⟨[], none⟩, .ok ⟨"f", false, 1, false⟩) :=
  unlock_skips_missing_files
    ⟨[], some ⟨List.replicate 32 0,
      create_verify_token (kdfBytes ("pw") (List.replicate 32 0)) 0,
      [⟨"a", "a.locked", ⟨[], "a"⟩⟩], none⟩⟩ ("f") ("pw")
    ⟨List.replicate 32 0,
      create_verify_token (kdfBytes ("pw") (List.replicate 32 0)) 0,
      [⟨"a", "a.locked", ⟨[], "a"⟩⟩], none⟩ rfl (by decide) (by decide)
    (by intro fm hfm; rfl)

/-! ## Claim C4: the manifest is the last write of lock_folder -/

/-- Branch analysis of lock_folder on an unlocked folder: error paths never
write a manifest; the success path writes one recording exactly the
enumerated files. -/
theorem lock_folder_split (st : FolderState) (fp pw : String)
    (mk? : Option Bytes) (salt : Bytes) (seed : Nat) (wOk : RPath → Bool)
    (mOk : Bool) (hman : st.manifest = none) :
    (∀ st1 e, lock_folder true st fp pw mk? salt seed wOk mOk = (st1, .error e) →
      st1.manifest = none) ∧
    (∀ st1 pf, lock_folder true st fp pw mk? salt seed wOk mOk = (st1, .ok pf) →
      ∃ meta, st1.manifest = some meta ∧
        meta.files = lockMetas (enumerate st.files) ∧
        pf.file_count = meta.files.length) := by
  constructor
  · intro st1 e h
    unfold lock_folder at h
    rw [if_neg (by simp), if_neg (by simp [hman])] at h
    rcases hd : derive_key pw salt with de | key
    · simp only [hd] at h
      injection h with h1 h2
      rw [← h1]
      exact hman
    · simp only [hd] at h
      rcases hl : lockLoop st.files key (enumerate st.files) (seed + 2) wOk
        with ⟨fs2, r2⟩
      cases r2 with
      | error e2 =>
        simp only [hl] at h
        injection h with h1 h2
        rw [← h1]
        exact hman
      | ok fm =>
        simp only [hl] at h
        by_cases hmo : mOk = false
        · rw [if_pos hmo] at h
          injection h with h1 h2
          rw [← h1]
          exact hman
        · rw [if_neg hmo] at h
          injection h with h1 h2
          exact Except.noConfusion h2
  · intro st1 pf h
    unfold lock_folder at h
    rw [if_neg (by simp), if_neg (by simp [hman])] at h
    rcases hd : derive_key pw salt with de | key
    · simp only [hd] at h
      injection h with h1 h2
      exact Except.noConfusion h2
    · simp only [hd] at h
      rcases hl : lockLoop st.files key (enumerate st.files) (seed + 2) wOk
        with ⟨fs2, r2⟩
      cases r2 with
      | error e2 =>
        simp only [hl] at h
        injection h with h1 h2
        exact Except.noConfusion h2
      | ok fm =>
        simp only [hl] at h
        by_cases hmo : mOk = false
        · rw [if_pos hmo] at h
          injection h with h1 h2
          exact Except.noConfusion h2
        · rw [if_neg hmo] at h
          injection h with h1 h2
          injection h2 with h3
          refine ⟨⟨salt, create_verify_token key seed, fm,
            mk?.map (fun mk => wrap_key mk key (seed + 1))⟩, ?_, ?_, ?_⟩
          · rw [← h1]
          · exact lockLoop_ok_metas key wOk (enumerate st.files) st.files
              (seed + 2) fs2 fm hl
          · rw [← h3]

/-- C4: during lock_folder no manifest is written until the whole file loop
has completed: every error path leaves the manifest slot empty, and on
success the manifest that appears records exactly the enumerated files and
the reported count matches it. -/
theorem lock_manifest_last_write (st : FolderState) (fp pw : String)
    (mk? : Option Bytes) (salt : Bytes) (seed : Nat) (wOk : RPath → Bool)
    (mOk : Bool) (hman : st.manifest = none) :
    (∀ st1 e, lock_folder true st fp pw mk? salt seed wOk mOk = (st1, .error e) →
      st1.manifest = none) ∧
    (∀ st1 pf, lock_folder true st fp pw mk? salt seed wOk mOk = (st1, .ok pf) →
      ∃ meta, st1.manifest = some meta ∧
        meta.files = lockMetas (enumerate st.files) ∧
        pf.file_count = meta.files.length) :=
  lock_folder_split st fp pw mk? salt seed wOk mOk hman

theorem lock_manifest_last_write_witness :
    (lock_folder true ⟨[(⟨[], "a"⟩, [1])], none⟩ ("f") ("pw") none
        (List.replicate 32 0) 0 (fun _ => false) true).1.manifest = none :=
  (lock_manifest_last_write ⟨[(⟨[], "a"⟩, [1])], none⟩ ("f") ("pw") none
      (List.replicate 32 0) 0 (fun _ => false) true rfl).1
    ⟨[(⟨[], "a"⟩, [1])], none⟩ ("Failed to write a.locked") (by rfl)

/-! ## Whole-operation computation lemmas -/

theorem lock_folder_computes (st : FolderState) (fp pw : String)
    (mk? : Option Bytes) (salt : Bytes) (seed : Nat) (wOk : RPath → Bool)
    (key : Bytes) (fsL : FS)
    (hman : st.manifest = none)
    (hdk : derive_key pw salt = .ok key)
    (hloop : lockLoop st.files key (enumerate st.files) (seed + 2) wOk
      = (fsL, .ok (lockMetas (enumerate st.files)))) :
    lock_folder true st fp pw mk? salt seed wOk true
      = (⟨fsL, some ⟨salt, create_verify_token key seed,
            lockMetas (enumerate st.files),
            mk?.map (fun mk => wrap_key mk key (seed + 1))⟩⟩,
         .ok ⟨fp, true, (lockMetas (enumerate st.files)).length,
            (mk?.map (fun mk => wrap_key mk key (seed + 1))).isSome⟩) := by
  unfold lock_folder
  rw [if_neg (by simp), if_neg (by simp [hman])]
  simp only [hdk, hloop]
  simp

theorem unlock_folder_computes (st : FolderState) (fp pw : String)
    (meta : FolderMeta) (fsU : FS)
    (hman : st.manifest = some meta)
    (hsalt : meta.salt.length = KEY_LEN)
    (hv : verify_password (kdfBytes pw meta.salt) meta.verify_token = true)
    (hdf : decrypt_files st.files (kdfBytes pw meta.salt) meta.files
      = (fsU, .ok ())) :
    unlock_folder st fp pw
      = (⟨fsU, none⟩, .ok ⟨fp, false, meta.files.length, false⟩) := by
  unfold unlock_folder read_meta
  rw [hman]
  simp only [hsalt, derive_key_ok pw meta.salt hsalt, hv, hdf]
  simp

theorem unlock_master_computes (st : FolderState) (fp : String) (mk : Bytes)
    (meta : FolderMeta) (wrapped fk : Bytes) (fsU : FS)
    (hman : st.manifest = some meta)
    (hrk : meta.recovery_key = some wrapped)
    (huw : unwrap_key mk wrapped = .ok fk)
    (hv : verify_password fk meta.verify_token = true)
    (hdf : decrypt_files st.files fk meta.files = (fsU, .ok ())) :
    unlock_folder_with_master_key st fp mk
      = (⟨fsU, none⟩, .ok ⟨fp, false, meta.files.length, false⟩) := by
  unfold unlock_folder_with_master_key read_meta
  rw [hman]
  simp only [hrk, huw, hv, hdf]
  simp

theorem unlock_master_unwrap_error (st : FolderState) (fp : String) (mk : Bytes)
    (meta : FolderMeta) (wrapped : Bytes) (e : String)
    (hman : st.manifest = some meta)
    (hrk : meta.recovery_key = some wrapped)
    (huw : unwrap_key mk wrapped = .error e) :
    unlock_folder_with_master_key st fp mk = (st, .error e) := by
  unfold unlock_folder_with_master_key read_meta
  rw [hman]
  simp only [hrk, huw]

theorem unlock_master_no_recovery (st : FolderState) (fp : String) (mk : Bytes)
    (meta : FolderMeta)
    (hman : st.manifest = some meta)
    (hrk : meta.recovery_key = none) :
    unlock_folder_with_master_key st fp mk = (st, .error noRecoveryMsg) := by
  unfold unlock_folder_with_master_key read_meta
  rw [hman]
  simp only [hrk]

/-! ## Claim C1 (amended): lock/unlock round trip -/

/-- C1 (amended): for a folder with no manifest, distinct file paths, and no
plaintext file whose path coincides with the locked name of an enumerated
file, lock followed by unlock with the same password succeeds, restores every
file to byte-identical content under its original name, and removes the
manifest.  (The no-collision hypothesis is forced by the counterexample
below; the source resolves such collisions by silently overwriting and
losing data.) -/
theorem lock_unlock_roundtrip (st : FolderState) (fp pw : String)
    (salt : Bytes) (seed : Nat)
    (hman : st.manifest = none) (hsalt : salt.length = 32)
    (hnodup : (st.files.map (fun e => e.1)).Nodup)
    (hnc : ∀ p ∈ enumerate st.files,
      lockedPath p ∉ st.files.map (fun e => e.1)) :
    ∃ st1 pf1 st2 pf2,
      lock_folder true st fp pw none salt seed (fun _ => true) true
        = (st1, .ok pf1) ∧
      unlock_folder st1 fp pw = (st2, .ok pf2) ∧
      st2.manifest = none ∧
      (∀ r, fsRead st2.files r = fsRead st.files r) := by
  have hmem : ∀ p ∈ enumerate st.files, p ∈ st.files.map (fun e => e.1) :=
    fun p hp => (List.mem_filter.mp hp).1
  have hnd : (enumerate st.files).Nodup := hnodup.filter _
  have hrd : ∀ p ∈ enumerate st.files, (fsRead st.files p).isSome :=
    fun p hp => fsRead_isSome_of_mem _ _ (hmem p hp)
  have hnc2 : ∀ p ∈ enumerate st.files, ∀ q ∈ enumerate st.files,
      lockedPath p ≠ q := by
    intro p hp q hq hc
    exact (hnc p hp) (hc ▸ hmem q hq)
  obtain ⟨fsL, hloop, hLnone, hLct, hLun⟩ :=
    lockLoop_spec (kdfBytes pw salt) (fun _ => true) (fun _ => rfl)
      (enumerate st.files) st.files (seed + 2) hnd hrd hnc2
  have hdk : derive_key pw salt = .ok (kdfBytes pw salt) :=
    derive_key_ok pw salt hsalt
  have hlock := lock_folder_computes st fp pw none salt seed (fun _ => true)
    (kdfBytes pw salt) fsL hman hdk hloop
  obtain ⟨fsU, hdf, hrest, hgone, hUun⟩ :=
    decrypt_files_spec (kdfBytes pw salt)
      (fun p => (fsRead st.files p).getD []) (enumerate st.files) fsL
      hnd hnc2 hLct
  have hunlock := unlock_folder_computes
    ⟨fsL, some ⟨salt, create_verify_token (kdfBytes pw salt) seed,
      lockMetas (enumerate st.files),
      Option.map (fun mk => wrap_key mk (kdfBytes pw salt) (seed + 1)) none⟩⟩
    fp pw
    ⟨salt, create_verify_token (kdfBytes pw salt) seed,
      lockMetas (enumerate st.files),
      Option.map (fun mk => wrap_key mk (kdfBytes pw salt) (seed + 1)) none⟩
    fsU rfl hsalt (verify_create (kdfBytes pw salt) seed) hdf
  refine ⟨_, _, _, _, hlock, hunlock, rfl, ?_⟩
  intro r
  by_cases hr1 : r ∈ enumerate st.files
  · obtain ⟨v, hv2⟩ := Option.isSome_iff_exists.mp (hrd r hr1)
    rw [hrest r hr1, hv2]
    rfl
  · by_cases hr2 : ∃ p ∈ enumerate st.files, lockedPath p = r
    · obtain ⟨p, hp, he⟩ := hr2
      subst he
      rw [hgone p hp, fsRead_eq_none_of_not_mem _ _ (hnc p hp)]
    · have h4 : ∀ p ∈ enumerate st.files, lockedPath p ≠ r :=
        fun p hp hc => hr2 ⟨p, hp, hc⟩
      rw [hUun r hr1 h4, hLun r hr1 h4]

theorem lock_unlock_roundtrip_witness :
    ∃ st1 pf1 st2 pf2,
      lock_folder true ⟨[(⟨[], "a"⟩, [1])], none⟩ ("f") ("pw") none
          (List.replicate 32 0) 0 (fun _ => true) true = (st1, .ok pf1) ∧
      unlock_folder st1 ("f") ("pw") = (st2, .ok pf2) ∧
      st2.manifest = none ∧
      (∀ r, fsRead st2.files r
        = fsRead (⟨[(⟨[], "a"⟩, [1])], none⟩ : FolderState).files r) :=
  lock_unlock_roundtrip ⟨[(⟨[], "a"⟩, [1])], none⟩ ("f") ("pw")
    (List.replicate 32 0) 0 rfl (by decide) (by decide) (by decide)

/-- C1 counterexample: the claim as stated, universally over directories of
plaintext files, is false.  In a folder holding files a (content [1]) and
a.locked (content [2]), lock then unlock with the same password reports
success on both steps, yet file a is gone afterwards: its ciphertext sibling
a.locked was overwritten during the lock walk and then consumed, so the
original content [1] is lost. -/
theorem roundtrip_collision_counterexample :
    fsRead ([(⟨[], "a"⟩, [1]), (⟨[], "a.locked"⟩, [2])] : FS) ⟨[], "a"⟩
        = some [1] ∧
    (lock_folder true ⟨[(⟨[], "a"⟩, [1]), (⟨[], "a.locked"⟩, [2])], none⟩
        ("f") ("pw") none (List.replicate 32 0) 0 (fun _ => true) true).2.toOption
        = some ⟨"f", true, 2, false⟩ ∧
    (unlock_folder (lock_folder true
        ⟨[(⟨[], "a"⟩, [1]), (⟨[], "a.locked"⟩, [2])], none⟩
        ("f") ("pw") none (List.replicate 32 0) 0 (fun _ => true) true).1
        ("f") ("pw")).2.toOption = some ⟨"f", false, 2, false⟩ ∧
    fsRead (unlock_folder (lock_folder true
        ⟨[(⟨[], "a"⟩, [1]), (⟨[], "a.locked"⟩, [2])], none⟩
        ("f") ("pw") none (List.replicate 32 0) 0 (fun _ => true) true).1
        ("f") ("pw")).1.files ⟨[], "a"⟩ = none := by
  refine ⟨by decide, by decide, by decide, by decide⟩

/-! ## Claim C3 (amended): master-key recovery paths -/

/-- C3 (amended): locking with a master key stores exactly the folder key
wrapped under that master key; unlock_folder_with_master_key with the same
master key succeeds and (in the absence of locked-name collisions, as forced
by the counterexample below) restores every file without the folder
password; a different master key fails with the uniform authentication
error; a manifest without a recovery key fails with the no-recovery-key
error. -/
theorem master_key_recovery (st : FolderState) (fp pw : String)
    (mk mk2 : Bytes) (salt : Bytes) (seed : Nat)
    (hman : st.manifest = none) (hsalt : salt.length = 32)
    (hnodup : (st.files.map (fun e => e.1)).Nodup)
    (hnc : ∀ p ∈ enumerate st.files,
      lockedPath p ∉ st.files.map (fun e => e.1)) :
    ∃ st1 pf1,
      lock_folder true st fp pw (some mk) salt seed (fun _ => true) true
        = (st1, .ok pf1) ∧
      (∃ meta, st1.manifest = some meta ∧
        meta.recovery_key = some (wrap_key mk (kdfBytes pw salt) (seed + 1))) ∧
      (∃ st2 pf2, unlock_folder_with_master_key st1 fp mk = (st2, .ok pf2) ∧
        st2.manifest = none ∧
        (∀ r, fsRead st2.files r = fsRead st.files r)) ∧
      (mk2 ≠ mk →
        unlock_folder_with_master_key st1 fp mk2 = (st1, .error authFailMsg)) ∧
      (∀ st3 meta3, st3.manifest = some meta3 → meta3.recovery_key = none →
        unlock_folder_with_master_key st3 fp mk = (st3, .error noRecoveryMsg)) := by
  have hmem : ∀ p ∈ enumerate st.files, p ∈ st.files.map (fun e => e.1) :=
    fun p hp => (List.mem_filter.mp hp).1
  have hnd : (enumerate st.files).Nodup := hnodup.filter _
  have hrd : ∀ p ∈ enumerate st.files, (fsRead st.files p).isSome :=
    fun p hp => fsRead_isSome_of_mem _ _ (hmem p hp)
  have hnc2 : ∀ p ∈ enumerate st.files, ∀ q ∈ enumerate st.files,
      lockedPath p ≠ q := by
    intro p hp q hq hc
    exact (hnc p hp) (hc ▸ hmem q hq)
  obtain ⟨fsL, hloop, hLnone, hLct, hLun⟩ :=
    lockLoop_spec (kdfBytes pw salt) (fun _ => true) (fun _ => rfl)
      (enumerate st.files) st.files (seed + 2) hnd hrd hnc2
  have hdk : derive_key pw salt = .ok (kdfBytes pw salt) :=
    derive_key_ok pw salt hsalt
  have hlock := lock_folder_computes st fp pw (some mk) salt seed
    (fun _ => true) (kdfBytes pw salt) fsL hman hdk hloop
  obtain ⟨fsU, hdf, hrest, hgone, hUun⟩ :=
    decrypt_files_spec (kdfBytes pw salt)
      (fun p => (fsRead st.files p).getD []) (enumerate st.files) fsL
      hnd hnc2 hLct
  have huw : unwrap_key mk (wrap_key mk (kdfBytes pw salt) (seed + 1))
      = .ok (kdfBytes pw salt) :=
    unwrap_wrap mk (kdfBytes pw salt) (seed + 1) (kdfBytes_length pw salt)
  refine ⟨_, _, hlock, ⟨_, rfl, rfl⟩,
    ⟨⟨fsU, none⟩, ⟨fp, false, (lockMetas (enumerate st.files)).length, false⟩,
      ?_, rfl, ?_⟩, ?_, ?_⟩
  · exact unlock_master_computes _ fp mk
      ⟨salt, create_verify_token (kdfBytes pw salt) seed,
        lockMetas (enumerate st.files),
        Option.map (fun k => wrap_key k (kdfBytes pw salt) (seed + 1)) (some mk)⟩
      (wrap_key mk (kdfBytes pw salt) (seed + 1)) (kdfBytes pw salt) fsU
      rfl rfl huw (verify_create (kdfBytes pw salt) seed) hdf
  · intro r
    by_cases hr1 : r ∈ enumerate st.files
    · obtain ⟨v, hv2⟩ := Option.isSome_iff_exists.mp (hrd r hr1)
      rw [hrest r hr1, hv2]
      rfl
    · by_cases hr2 : ∃ p ∈ enumerate st.files, lockedPath p = r
      · obtain ⟨p, hp, he⟩ := hr2
        subst he
        rw [hgone p hp, fsRead_eq_none_of_not_mem _ _ (hnc p hp)]
      · have h4 : ∀ p ∈ enumerate st.files, lockedPath p ≠ r :=
          fun p hp hc => hr2 ⟨p, hp, hc⟩
        rw [hUun r hr1 h4, hLun r hr1 h4]
  · intro hne
    exact unlock_master_unwrap_error _ fp mk2
      ⟨salt, create_verify_token (kdfBytes pw salt) seed,
        lockMetas (enumerate st.files),
        Option.map (fun k => wrap_key k (kdfBytes pw salt) (seed + 1)) (some mk)⟩
      (wrap_key mk (kdfBytes pw salt) (seed + 1)) authFailMsg rfl rfl
      (unwrap_wrap_ne mk mk2 (kdfBytes pw salt) (seed + 1) hne)
  · intro st3 meta3 h3 h4
    exact unlock_master_no_recovery st3 fp mk meta3 h3 h4

theorem master_key_recovery_witness :
    ∃ st1 pf1,
      lock_folder true ⟨[(⟨[], "a"⟩, [1])], none⟩ ("f") ("pw")
          (some (List.replicate 32 7)) (List.replicate 32 0) 0
          (fun _ => true) true = (st1, .ok pf1) ∧
      (∃ meta, st1.manifest = some meta ∧
        meta.recovery_key = some (wrap_key (List.replicate 32 7)
          (kdfBytes ("pw") (List.replicate 32 0)) 1)) ∧
      (∃ st2 pf2, unlock_folder_with_master_key st1 ("f") (List.replicate 32 7)
          = (st2, .ok pf2) ∧ st2.manifest = none ∧
        (∀ r, fsRead st2.files r
          = fsRead (⟨[(⟨[], "a"⟩, [1])], none⟩ : FolderState).files r)) ∧
      (List.replicate 32 8 ≠ List.replicate 32 7 →
        unlock_folder_with_master_key st1 ("f") (List.replicate 32 8)
          = (st1, .error authFailMsg)) ∧
      (∀ st3 meta3, st3.manifest = some meta3 → meta3.recovery_key = none →
        unlock_folder_with_master_key st3 ("f") (List.replicate 32 7)
          = (st3, .error noRecoveryMsg)) :=
  master_key_recovery ⟨[(⟨[], "a"⟩, [1])], none⟩ ("f") ("pw")
    (List.replicate 32 7) (List.replicate 32 8) (List.replicate 32 0) 0
    rfl (by decide) (by decide) (by decide)

/-- C3 counterexample: with the same collision folder as for the round-trip
claim, locking while a master key is supplied and then unlocking with that
same master key reports success, yet file a is not restored: the universal
"restores all files" part of the claim fails on the source. -/
theorem recovery_collision_counterexample :
    (unlock_folder_with_master_key (lock_folder true
        ⟨[(⟨[], "a"⟩, [1]), (⟨[], "a.locked"⟩, [2])], none⟩
        ("f") ("pw") (some (List.replicate 32 7)) (List.replicate 32 0) 0
        (fun _ => true) true).1 ("f") (List.replicate 32 7)).2.toOption
        = some ⟨"f", false, 2, false⟩ ∧
    fsRead (unlock_folder_with_master_key (lock_folder true
        ⟨[(⟨[], "a"⟩, [1]), (⟨[], "a.locked"⟩, [2])], none⟩
        ("f") ("pw") (some (List.replicate 32 7)) (List.replicate 32 0) 0
        (fun _ => true) true).1 ("f") (List.replicate 32 7)).1.files
        ⟨[], "a"⟩ = none := by
  refine ⟨by decide, by decide⟩

/-! ## World-level lemmas for lock_all -/

theorem wLookup_cons_self (e : String × FolderState) (rest : World) (q : String)
    (hq : e.1 = q) : wLookup (e :: rest) q = some e.2 := by
  unfold wLookup
  rw [List.find?_cons_of_pos rest (by simp [hq])]
  rfl

theorem wLookup_cons_ne (e : String × FolderState) (rest : World) (q : String)
    (hq : ¬ e.1 = q) : wLookup (e :: rest) q = wLookup rest q := by
  unfold wLookup
  rw [List.find?_cons_of_neg rest (by simp [hq])]

theorem wLookup_filter_ne (p q : String) (h : q ≠ p) :
    ∀ w : World,
      wLookup (w.filter (fun e => !(decide (e.1 = p)))) q = wLookup w q := by
  intro w
  induction w with
  | nil => rfl
  | cons e rest ih =>
    by_cases he : e.1 = p
    · have hq : ¬ e.1 = q := by rw [he]; exact fun hc => h hc.symm
      have hf : (e :: rest).filter (fun e => !(decide (e.1 = p)))
          = rest.filter (fun e => !(decide (e.1 = p))) := by
        simp [List.filter, he]
      rw [hf, wLookup_cons_ne e rest q hq]
      exact ih
    · have hf : (e :: rest).filter (fun e => !(decide (e.1 = p)))
          = e :: rest.filter (fun e => !(decide (e.1 = p))) := by
        simp [List.filter, he]
      by_cases hq : e.1 = q
      · rw [hf, wLookup_cons_self e _ q hq, wLookup_cons_self e rest q hq]
      · rw [hf, wLookup_cons_ne e _ q hq, wLookup_cons_ne e rest q hq]
        exact ih

theorem wLookup_wUpdate_self (w : World) (p : String) (st : FolderState) :
    wLookup (wUpdate w p st) p = some st := by
  unfold wUpdate
  rw [wLookup_cons_self (p, st) _ p rfl]

theorem wLookup_wUpdate_ne (w : World) (p q : String) (st : FolderState)
    (h : q ≠ p) : wLookup (wUpdate w p st) q = wLookup w q := by
  unfold wUpdate
  rw [wLookup_cons_ne (p, st) _ q (fun hc => h hc.symm)]
  exact wLookup_filter_ne p q h w

/-- A folder whose manifest exists stays locked through any lock_folder
call on it (the already-locked guard returns it unchanged). -/
theorem lock_folder_manifest_isSome (d : Bool) (st : FolderState)
    (fp pw : String) (mk? : Option Bytes) (salt : Bytes) (seed : Nat)
    (wOk : RPath → Bool) (mOk : Bool) (h : st.manifest.isSome = true) :
    ((lock_folder d st fp pw mk? salt seed wOk mOk).1).manifest.isSome = true := by
  cases d
  · simpa [lock_folder] using h
  · unfold lock_folder
    rw [if_neg (by simp), if_pos h]
    exact h

/-- A successful lock_folder leaves the folder with a manifest. -/
theorem lock_folder_ok_isSome (st : FolderState) (fp pw : String)
    (mk? : Option Bytes) (salt : Bytes) (seed : Nat) (wOk : RPath → Bool)
    (mOk : Bool) (st1 : FolderState) (pf : ProtectedFolder)
    (h : lock_folder true st fp pw mk? salt seed wOk mOk = (st1, .ok pf)) :
    st1.manifest.isSome = true := by
  by_cases hm : st.manifest = none
  · obtain ⟨meta, hmeta, _, _⟩ :=
      (lock_folder_split st fp pw mk? salt seed wOk mOk hm).2 st1 pf h
    rw [hmeta]
    rfl
  · unfold lock_folder at h
    rw [if_neg (by simp), if_pos (Option.ne_none_iff_isSome.mp hm)] at h
    injection h with h1 h2
    exact Except.noConfusion h2

theorem lock_folder_at_preserves (w : World) (p pw : String)
    (mk? : Option Bytes) (salt : Bytes) (seed : Nat) (wOk : RPath → Bool)
    (mOk : Bool) (w1 : World) (r : Except String ProtectedFolder)
    (h : lock_folder_at w p pw mk? salt seed wOk mOk = (w1, r))
    (x : String) (hx : is_locked_w w x = true) : is_locked_w w1 x = true := by
  unfold lock_folder_at at h
  rcases hl : wLookup w p with _ | st
  · simp only [hl] at h
    injection h with h1 h2
    rw [← h1]
    exact hx
  · simp only [hl] at h
    injection h with h1 h2
    rw [← h1]
    by_cases hxp : x = p
    · subst hxp
      have hstm : st.manifest.isSome = true := by
        unfold is_locked_w at hx
        rw [hl] at hx
        exact hx
      unfold is_locked_w
      rw [wLookup_wUpdate_self]
      exact lock_folder_manifest_isSome true st x pw mk? salt seed wOk mOk hstm
    · unfold is_locked_w
      rw [wLookup_wUpdate_ne _ _ _ _ hxp]
      unfold is_locked_w at hx
      exact hx

theorem lock_folder_at_ok_locks (w : World) (p pw : String)
    (mk? : Option Bytes) (salt : Bytes) (seed : Nat) (wOk : RPath → Bool)
    (mOk : Bool) (w1 : World) (pf : ProtectedFolder)
    (h : lock_folder_at w p pw mk? salt seed wOk mOk = (w1, .ok pf)) :
    is_locked_w w1 p = true := by
  unfold lock_folder_at at h
  rcases hl : wLookup w p with _ | st
  · simp only [hl] at h
    injection h with h1 h2
    exact Except.noConfusion h2
  · simp only [hl] at h
    injection h with h1 h2
    rcases hres : lock_folder true st p pw mk? salt seed wOk mOk with ⟨st1, r1⟩
    rw [hres] at h1 h2
    have h1' : wUpdate w p st1 = w1 := h1
    have h2' : r1 = Except.ok pf := h2
    rw [← h1']
    unfold is_locked_w
    rw [wLookup_wUpdate_self]
    rw [h2'] at hres
    exact lock_folder_ok_isSome st p pw mk? salt seed wOk mOk st1 pf hres

/-- Batch locking never unlocks a folder: a locked folder stays locked
through lock_all. -/
theorem lock_all_preserves_locked (pw : String) (mk? : Option Bytes)
    (env : Env) :
    ∀ (watched : List String) (w : World) (i : Nat) (x : String),
      is_locked_w w x = true →
      is_locked_w (lock_all w watched pw mk? env i).1 x = true := by
  intro watched
  induction watched with
  | nil =>
    intro w i x h
    exact h
  | cons p rest ih =>
    intro w i x h
    rw [lock_all]
    by_cases hl : is_locked_w w p
    · rw [if_pos hl]
      exact ih w (i + 1) x h
    · rw [if_neg hl]
      rcases hstep : lock_folder_at w p pw mk? (env.saltOf i) (env.seedOf i)
        (env.writeOkOf p) (env.metaOkOf p) with ⟨w1, r1⟩
      have hw1 : is_locked_w w1 x = true :=
        lock_folder_at_preserves w p pw mk? (env.saltOf i) (env.seedOf i)
          (env.writeOkOf p) (env.metaOkOf p) w1 r1 hstep x h
      cases r1 with
      | ok pf =>
        rcases hrec : lock_all w1 rest pw mk? env (i + 1) with ⟨w2, r2⟩
        have hw2 := ih w1 (i + 1) x hw1
        rw [hrec] at hw2
        cases r2 with
        | ok pfs => simpa [hstep, hrec] using hw2
        | error e => simpa [hstep, hrec] using hw2
      | error e => simpa [hstep] using hw1

/-! ## Claim C10: lock_all skips locked folders and aborts on first error -/

/-- C10: lock_all silently skips a watched folder whose manifest already
exists (no AlreadyLocked error, and it is absent from the result list, which
collects only the folders actually locked); on a non-locked folder an error
aborts the batch immediately with the wrapped error message, and an error
later in the batch leaves the folders locked earlier in the batch locked. -/
theorem lock_all_skip_and_abort (w : World) (pw : String) (mk? : Option Bytes)
    (env : Env) (p : String) (rest : List String) (i : Nat) :
    (is_locked_w w p = true →
      lock_all w (p :: rest) pw mk? env i = lock_all w rest pw mk? env (i + 1)) ∧
    (∀ w1 e, is_locked_w w p = false →
      lock_folder_at w p pw mk? (env.saltOf i) (env.seedOf i)
        (env.writeOkOf p) (env.metaOkOf p) = (w1, .error e) →
      lock_all w (p :: rest) pw mk? env i
        = (w1, .error ("Failed to lock " ++ p ++ ": " ++ e))) ∧
    (∀ w1 pf w2 e2, is_locked_w w p = false →
      lock_folder_at w p pw mk? (env.saltOf i) (env.seedOf i)
        (env.writeOkOf p) (env.metaOkOf p) = (w1, .ok pf) →
      lock_all w1 rest pw mk? env (i + 1) = (w2, .error e2) →
      lock_all w (p :: rest) pw mk? env i = (w2, .error e2) ∧
        is_locked_w w2 p = true) := by
  refine ⟨?_, ?_, ?_⟩
  · intro h
    rw [lock_all, if_pos h]
  · intro w1 e h hstep
    rw [lock_all, if_neg (by simp [h])]
    simp only [hstep]
  · intro w1 pf w2 e2 h hstep hrec
    constructor
    · rw [lock_all, if_neg (by simp [h])]
      simp only [hstep, hrec]
    · have h1 : is_locked_w w1 p = true :=
        lock_folder_at_ok_locks w p pw mk? (env.saltOf i) (env.seedOf i)
          (env.writeOkOf p) (env.metaOkOf p) w1 pf hstep
      have h2 := lock_all_preserves_locked pw mk? env rest w1 (i + 1) p h1
      rw [hrec] at h2
      exact h2

theorem lock_all_skip_and_abort_witness :
    lock_all [("f1", ⟨[], some ⟨[], [], [], none⟩⟩)] ["f1"] ("pw") none
        ⟨fun _ => List.replicate 32 0, fun _ => 0, fun _ _ => true,
          fun _ => true⟩ 0
      = lock_all [("f1", ⟨[], some ⟨[], [], [], none⟩⟩)] [] ("pw") none
        ⟨fun _ => List.replicate 32 0, fun _ => 0, fun _ _ => true,
          fun _ => true⟩ 1 :=
  (lock_all_skip_and_abort [("f1", ⟨[], some ⟨[], [], [], none⟩⟩)] ("pw") none
      ⟨fun _ => List.replicate 32 0, fun _ => 0, fun _ _ => true,
        fun _ => true⟩ ("f1") [] 0).1 (by decide)

end SecureLock
